import Mathlib

/-
Verification of the ILSOS fixed-width downloader core (src/utils.py).

The Python source is shallowly embedded: text is `List Char`, Python
`str.strip` / `str.splitlines` / `str.replace` / slicing are modelled as
executable Lean functions, and `parse_fixed_width` is translated line by
line.  The schema registry `ILSOS_SCHEMA` is copied verbatim.  The
`tenacity` retry wrapper around `get_zip_content` is modelled as an
explicit bounded retry loop on `Except` values.
-/

namespace Ilsos

/-- Python `str.isspace` for the characters relevant here (the whitespace
set used by `str.strip()`): ASCII whitespace, the C0 separators
FS/GS/RS/US, NEL, NBSP, and the Unicode space/separator code points. -/
def pyIsSpace (c : Char) : Bool :=
  c == ' ' || c == '\t' || c == '\n' || c == '\r' ||
  c == Char.ofNat 0x0b || c == Char.ofNat 0x0c ||
  c == Char.ofNat 0x1c || c == Char.ofNat 0x1d ||
  c == Char.ofNat 0x1e || c == Char.ofNat 0x1f ||
  c == Char.ofNat 0x85 || c == Char.ofNat 0xa0 ||
  c == Char.ofNat 0x1680 ||
  (decide (0x2000 ≤ c.toNat) && decide (c.toNat ≤ 0x200a)) ||
  c == Char.ofNat 0x2028 || c == Char.ofNat 0x2029 ||
  c == Char.ofNat 0x202f || c == Char.ofNat 0x205f ||
  c == Char.ofNat 0x3000

/-- The line boundaries recognised by Python `str.splitlines`:
LF, CR, VT, FF, FS, GS, RS, NEL, LINE SEPARATOR, PARAGRAPH SEPARATOR
(CRLF is handled as a single boundary in `splitlines` itself). -/
def isLineBreak (c : Char) : Bool :=
  c == '\n' || c == '\r' ||
  c == Char.ofNat 0x0b || c == Char.ofNat 0x0c ||
  c == Char.ofNat 0x1c || c == Char.ofNat 0x1d ||
  c == Char.ofNat 0x1e || c == Char.ofNat 0x85 ||
  c == Char.ofNat 0x2028 || c == Char.ofNat 0x2029

/-- Prepend a character to the first line of a line list (starting a new
line when there is none). -/
def consHead (c : Char) : List (List Char) → List (List Char)
  | [] => [[c]]
  | l :: ls => (c :: l) :: ls

/-- Python `str.splitlines()`: split at each line boundary, treating CRLF
as one boundary; a trailing boundary does not produce an extra empty
line, and the empty string yields no lines. -/
def splitlines : List Char → List (List Char)
  | [] => []
  | c :: cs =>
    if c = '\r' then
      match cs with
      | [] => [[]]
      | c2 :: cs2 =>
        if c2 = '\n' then [] :: splitlines cs2
        else [] :: splitlines (c2 :: cs2)
    else if isLineBreak c then
      [] :: splitlines cs
    else
      consHead c (splitlines cs)

/-- Python `str.lstrip()`. -/
def lstrip (cs : List Char) : List Char := cs.dropWhile pyIsSpace

/-- Python `str.rstrip()`. -/
def rstrip (cs : List Char) : List Char := (cs.reverse.dropWhile pyIsSpace).reverse

/-- Python `str.strip()`. -/
def pystrip (cs : List Char) : List Char := rstrip (lstrip cs)

/-- Python `str.replace(a, b)` for single-character `a`, `b`. -/
def replaceChar (a b : Char) (cs : List Char) : List Char :=
  cs.map (fun c => if c = a then b else c)

/-- Python `str.replace(a, "")` for a single-character `a`. -/
def removeChar (a : Char) (cs : List Char) : List Char :=
  cs.filter (fun c => !(c == a))

/-- The character-cleaning pass of `parse_fixed_width`:
`line.replace("İ", "[").replace("¨", "]").replace("¬", "^").replace("\x00", "")`. -/
def clean_line (cs : List Char) : List Char :=
  removeChar (Char.ofNat 0)
    (replaceChar '¬' '^' (replaceChar '¨' ']' (replaceChar 'İ' '[' cs)))

/-- Python slice `cs[start:stop]` for `0 ≤ start ≤ stop`. -/
def pySlice (cs : List Char) (start stop : Nat) : List Char :=
  (cs.drop start).take (stop - start)

/-- A schema is an ordered list of `(column name, start offset, length)`. -/
abbrev FixedWidthSchema := List (String × Nat × Nat)

/-- A record maps each column name to its trimmed string value, in schema
order (Python dicts preserve insertion order). -/
abbrev Record := List (String × List Char)

/-- The inner row loop of `parse_fixed_width`: for each
`(col_name, start, length)` in the schema, slice the cleaned line from
`start` to `start + length` and strip whitespace. -/
def parseRow (cl : List Char) (schema : FixedWidthSchema) : Record :=
  schema.map (fun f => (f.1, pystrip (pySlice cl f.2.1 (f.2.1 + f.2.2))))

/-- `parse_fixed_width(txt_content, schema)` from src/utils.py:
`lines = txt_content.strip().splitlines()[1:-1]`, then per line the
character cleaning followed by the schema-driven slicing. -/
def parse_fixed_width (txt : List Char) (schema : FixedWidthSchema) : List Record :=
  (((splitlines (pystrip txt)).drop 1).dropLast).map
    (fun line => parseRow (clean_line line) schema)

/-- The schema registry `ILSOS_SCHEMA` from src/utils.py, copied field by
field. -/
def ILSOS_SCHEMA : List (String × FixedWidthSchema) :=
  [("cdxallmst",
    [("file_number", 0, 8), ("incorp_date", 8, 8), ("extended_date", 16, 8),
     ("state_code", 24, 2), ("corp_intent", 26, 3), ("status", 29, 2),
     ("type_corp", 31, 1), ("trans_date", 32, 8), ("pres_name_addr", 40, 60),
     ("sec_name_addr", 100, 60)]),
   ("cdxallnam", [("file_number", 0, 8), ("name", 8, 189)]),
   ("cdxallagt",
    [("file_number", 0, 8), ("agent_name", 8, 60), ("agent_street", 68, 45),
     ("agent_city", 113, 30), ("agent_change_date", 143, 8),
     ("agent_code", 151, 1), ("agent_zip", 152, 9),
     ("agent_county_code", 161, 3)]),
   ("cdxallaon",
    [("file_number", 0, 8), ("cancel_date", 8, 8), ("assumed_curr_date", 16, 8),
     ("assumed_old_ind", 24, 1), ("assumed_old_date", 25, 8),
     ("assumed_old_name", 33, 189)]),
   ("llcallmst",
    [("file_number", 0, 8), ("purpose_code", 8, 6), ("status_code", 14, 2),
     ("status_date", 16, 8), ("organized_date", 24, 8),
     ("dissolution_date", 32, 8), ("management_type", 40, 1),
     ("juris_organized", 41, 2), ("records_off_street", 43, 45),
     ("records_off_city", 88, 30), ("records_off_zip", 118, 9),
     ("records_off_juris", 127, 2), ("assumed_in", 129, 1),
     ("old_ind", 130, 1), ("provisions_ind", 131, 1), ("opt_ind", 132, 1),
     ("series_ind", 133, 1), ("uap_ind", 134, 1), ("l3c_ind", 135, 1)]),
   ("llcallnam", [("file_number", 0, 8), ("name", 8, 120)]),
   ("llcallagt",
    [("file_number", 0, 8), ("agent_code", 8, 1), ("agent_name", 9, 60),
     ("agent_street", 69, 45), ("agent_city", 114, 30), ("agent_zip", 144, 9),
     ("agent_county_code", 153, 3), ("agent_change_date", 156, 8)]),
   ("llcallold",
    [("file_number", 0, 8), ("old_date_filed", 8, 8), ("llc_name", 16, 120),
     ("series_nbr", 136, 3)]),
   ("llcallmgr",
    [("file_number", 0, 8), ("mm_name", 8, 60), ("mm_street", 68, 45),
     ("mm_city", 113, 30), ("mm_juris", 143, 2), ("mm_zip", 145, 9),
     ("mm_file_date", 154, 8), ("mm_type_code", 162, 1)])]

/-- `ILSOS_SCHEMA[id]` in `process_dataset`: dictionary lookup by dataset
identifier; a missing key raises `KeyError(id)`, modelled as `none`. -/
def schemaLookup (key : String) : Option FixedWidthSchema :=
  (ILSOS_SCHEMA.find? (fun p => p.1 == key)).map Prod.snd

/-- The exceptions distinguished by `is_retryable_http_error`:
`requests.exceptions.Timeout`, `requests.exceptions.ConnectionError`,
`requests.exceptions.HTTPError` carrying an optional response status
code, and any other exception. -/
inductive FetchError where
  | timeoutErr : FetchError
  | connectionErr : FetchError
  | httpErr : Option Nat → FetchError
  | otherErr : FetchError
deriving DecidableEq

/-- `is_retryable_http_error` from src/utils.py: retry on timeout and
connection errors, and on `HTTPError` whose attached response has a 5xx
status code; everything else is not retryable. -/
def is_retryable_http_error : FetchError → Bool
  | FetchError.timeoutErr => true
  | FetchError.connectionErr => true
  | FetchError.httpErr (some code) => decide (500 ≤ code) && decide (code < 600)
  | FetchError.httpErr none => false
  | FetchError.otherErr => false

/-- `tenacity.wait_exponential(multiplier, max, exp_base=2, min)`:
`max(max(0, min), min(multiplier * 2 ^ attempt_number, max))`. -/
def wait_exponential (multiplier mn mx attempt : Nat) : Nat :=
  Nat.max (Nat.max 0 mn) (Nat.min (multiplier * 2 ^ attempt) mx)

/-- The retry loop of `tenacity.retry` with `stop_after_attempt` and
`reraise=True`: `f` is the fetch, indexed by attempt number (1-based);
the second argument counts the attempts still allowed after the current
one.  Returns the final outcome and the number of the attempt that
produced it. -/
def retryAux {α : Type} (f : Nat → Except FetchError α) (attempt : Nat) :
    Nat → Except FetchError α × Nat
  | 0 => (f attempt, attempt)
  | left + 1 =>
    match f attempt with
    | Except.ok a => (Except.ok a, attempt)
    | Except.error e =>
      if is_retryable_http_error e then retryAux f (attempt + 1) left
      else (Except.error e, attempt)

/-- `retry_handler` from src/utils.py: at most 3 attempts
(`stop_after_attempt(3)`), retrying only when `is_retryable_http_error`
holds, reraising the last error otherwise. -/
def retry_handler {α : Type} (f : Nat → Except FetchError α) :
    Except FetchError α × Nat :=
  retryAux f 1 2

/-- The demonstration schema used by the spec examples:
`[("a", 0, 3), ("b", 3, 2)]`. -/
def abSchema : FixedWidthSchema := [("a", 0, 3), ("b", 3, 2)]

/-- The simultaneous form of the glyph substitution in `clean_line`:
the glyph `İ` becomes `[`, `¨` becomes `]`, `¬` becomes `^`, and every
other character is unchanged. -/
def substGlyph (c : Char) : Char :=
  if c = 'İ' then '[' else if c = '¨' then ']' else if c = '¬' then '^' else c

/-- A text is null-free when it contains no U+0000 character. -/
abbrev noNull (cs : List Char) : Prop := Char.ofNat 0 ∉ cs

theorem clean_line_eq (cs : List Char) :
    clean_line cs = (cs.map substGlyph).filter (fun c => !(c == Char.ofNat 0)) := by
  unfold clean_line removeChar replaceChar
  rw [List.map_map, List.map_map]
  congr 1
  apply List.map_congr_left
  intro c _
  by_cases h1 : c = 'İ'
  · subst h1; decide
  · by_cases h2 : c = '¨'
    · subst h2; decide
    · by_cases h3 : c = '¬'
      · subst h3; decide
      · simp [substGlyph, Function.comp, h1, h2, h3]

theorem substGlyph_ne_null (c : Char) (h : ¬ c = Char.ofNat 0) :
    ¬ substGlyph c = Char.ofNat 0 := by
  unfold substGlyph
  split_ifs with h1 h2 h3
  · decide
  · decide
  · decide
  · exact h

theorem clean_line_of_noNull (cs : List Char) (h : noNull cs) :
    clean_line cs = cs.map substGlyph := by
  rw [clean_line_eq]
  apply List.filter_eq_self.mpr
  intro a ha
  obtain ⟨c, hc, rfl⟩ := List.mem_map.mp ha
  simp only [Bool.not_eq_true', beq_eq_false_iff_ne, ne_eq]
  exact substGlyph_ne_null c (fun e => h (e ▸ hc))

theorem splitlines_nil : splitlines [] = [] := rfl

theorem splitlines_cr_nil : splitlines ['\r'] = [[]] := rfl

theorem splitlines_crlf (cs : List Char) :
    splitlines ('\r' :: '\n' :: cs) = [] :: splitlines cs := rfl

theorem splitlines_cr_cons (c2 : Char) (cs2 : List Char) (h : ¬ c2 = '\n') :
    splitlines ('\r' :: c2 :: cs2) = [] :: splitlines (c2 :: cs2) := by
  rw [splitlines]
  simp [h]

theorem splitlines_break (c : Char) (cs : List Char) (h1 : isLineBreak c = true)
    (h2 : ¬ c = '\r') : splitlines (c :: cs) = [] :: splitlines cs := by
  rw [splitlines.eq_def]
  simp [h1, h2]

theorem splitlines_other (c : Char) (cs : List Char) (h : isLineBreak c = false) :
    splitlines (c :: cs) = consHead c (splitlines cs) := by
  have h2 : ¬ c = '\r' := by
    intro e; subst e; simp [isLineBreak] at h
  rw [splitlines.eq_def]
  simp [h, h2]

theorem length_consHead (c : Char) (ls : List (List Char)) :
    (consHead c ls).length = Nat.max 1 ls.length := by
  cases ls with
  | nil => rfl
  | cons l ls => simp [consHead, Nat.max_eq_right, Nat.succ_le_succ, Nat.zero_le]

theorem splitlines_cons_le (c : Char) (cs : List Char) :
    (splitlines cs).length ≤ (splitlines (c :: cs)).length := by
  by_cases hc : c = '\r'
  · subst hc
    cases cs with
    | nil => simp [splitlines_nil, splitlines_cr_nil]
    | cons c2 cs2 =>
      by_cases h2 : c2 = '\n'
      · subst h2
        rw [splitlines_crlf, splitlines_break '\n' cs2 (by decide) (by decide)]
      · rw [splitlines_cr_cons c2 cs2 h2]
        exact Nat.le_succ _
  · by_cases hb : isLineBreak c = true
    · rw [splitlines_break c cs hb hc]
      exact Nat.le_succ _
    · rw [splitlines_other c cs (by simpa using hb), length_consHead]
      exact Nat.le_max_right _ _

theorem splitlines_snoc_le_aux :
    ∀ (n : Nat) (cs : List Char), cs.length = n → ∀ (c : Char),
      (splitlines cs).length ≤ (splitlines (cs ++ [c])).length := by
  intro n
  induction n using Nat.strong_induction_on with
  | _ n ih =>
    intro cs hlen c
    cases cs with
    | nil => simp [splitlines_nil]
    | cons c0 cs' =>
      by_cases h0 : c0 = '\r'
      · subst h0
        cases cs' with
        | nil =>
          by_cases hc : c = '\n'
          · subst hc
            rw [splitlines_cr_nil]
            rw [show (['\r'] ++ ['\n'] : List Char) = '\r' :: '\n' :: [] from rfl]
            rw [splitlines_crlf, splitlines_nil]
          · rw [splitlines_cr_nil]
            rw [show (['\r'] ++ [c] : List Char) = '\r' :: c :: [] from rfl]
            rw [splitlines_cr_cons c [] hc]
            simp
        | cons c1 cs'' =>
          by_cases h1 : c1 = '\n'
          · subst h1
            rw [splitlines_crlf]
            rw [show ('\r' :: '\n' :: cs'') ++ [c] = '\r' :: '\n' :: (cs'' ++ [c]) from rfl]
            rw [splitlines_crlf]
            have hlt : cs''.length < n := by simp at hlen; omega
            exact Nat.succ_le_succ (ih _ hlt cs'' rfl c)
          · rw [splitlines_cr_cons c1 cs'' h1]
            rw [show ('\r' :: c1 :: cs'') ++ [c] = '\r' :: c1 :: (cs'' ++ [c]) from rfl]
            rw [splitlines_cr_cons c1 (cs'' ++ [c]) h1]
            have hlt : (c1 :: cs'').length < n := by simp at hlen; simp; omega
            exact Nat.succ_le_succ (ih _ hlt (c1 :: cs'') rfl c)
      · have hlt : cs'.length < n := by simp at hlen; omega
        by_cases hb : isLineBreak c0 = true
        · rw [splitlines_break c0 cs' hb h0]
          rw [show (c0 :: cs') ++ [c] = c0 :: (cs' ++ [c]) from rfl]
          rw [splitlines_break c0 (cs' ++ [c]) hb h0]
          exact Nat.succ_le_succ (ih _ hlt cs' rfl c)
        · rw [splitlines_other c0 cs' (by simpa using hb)]
          rw [show (c0 :: cs') ++ [c] = c0 :: (cs' ++ [c]) from rfl]
          rw [splitlines_other c0 (cs' ++ [c]) (by simpa using hb)]
          rw [length_consHead, length_consHead]
          exact max_le_max (Nat.le_refl 1) (ih _ hlt cs' rfl c)

theorem splitlines_snoc_le (cs : List Char) (c : Char) :
    (splitlines cs).length ≤ (splitlines (cs ++ [c])).length :=
  splitlines_snoc_le_aux cs.length cs rfl c

theorem lstrip_lines_le (cs : List Char) :
    (splitlines (lstrip cs)).length ≤ (splitlines cs).length := by
  induction cs with
  | nil => exact Nat.le_refl _
  | cons c cs ih =>
    by_cases h : pyIsSpace c = true
    · rw [lstrip, List.dropWhile_cons, if_pos h]
      exact Nat.le_trans ih (splitlines_cons_le c cs)
    · rw [lstrip, List.dropWhile_cons, if_neg (by simpa using h)]

theorem rstrip_snoc_space (l : List Char) (a : Char) (h : pyIsSpace a = true) :
    rstrip (l ++ [a]) = rstrip l := by
  simp [rstrip, List.reverse_append, List.dropWhile_cons, h]

theorem rstrip_snoc_other (l : List Char) (a : Char) (h : ¬ pyIsSpace a = true) :
    rstrip (l ++ [a]) = l ++ [a] := by
  simp [rstrip, List.reverse_append, List.dropWhile_cons, h]

theorem rstrip_lines_le (cs : List Char) :
    (splitlines (rstrip cs)).length ≤ (splitlines cs).length := by
  induction cs using List.reverseRecOn with
  | nil => simp [rstrip]
  | append_singleton l a ih =>
    by_cases h : pyIsSpace a = true
    · rw [rstrip_snoc_space l a h]
      exact Nat.le_trans ih (splitlines_snoc_le l a)
    · rw [rstrip_snoc_other l a h]

theorem pystrip_lines_le (cs : List Char) :
    (splitlines (pystrip cs)).length ≤ (splitlines cs).length :=
  Nat.le_trans (rstrip_lines_le (lstrip cs)) (lstrip_lines_le cs)

theorem pySlice_elems (line : List Char) (start len : Nat) :
    pySlice line start (start + len) =
      (List.range len).filterMap (fun i => getElem? line (start + i)) := by
  induction len with
  | zero => simp [pySlice]
  | succ n ih =>
    rw [List.range_succ, List.filterMap_append, ← ih]
    unfold pySlice
    rw [Nat.add_sub_cancel_left, Nat.add_sub_cancel_left, List.take_succ]
    rw [List.getElem?_drop]
    cases h : getElem? line (start + n) with
    | none => simp [h, List.filterMap]
    | some b => simp [h, List.filterMap]

/-- C7: for the schema `[("a",0,3),("b",3,2)]` and the 3-line input
`"HDR\nabcXY\nFTR"`, `parse_fixed_width` produces exactly the one record
`{"a":"abc","b":"XY"}`. -/
theorem C7_spec_example :
    parse_fixed_width "HDR\nabcXY\nFTR".toList abSchema =
      [[("a", "abc".toList), ("b", "XY".toList)]] := by
  decide

/-- C6: in every one of the nine registered schemas the field
descriptors have pairwise non-overlapping ranges listed in strictly
ascending start order, and every start is non-negative and every length
positive. -/
theorem C6_registry_invariant :
    ∀ p ∈ ILSOS_SCHEMA,
      List.Pairwise (fun f g => f.2.1 + f.2.2 ≤ g.2.1 ∧ f.2.1 < g.2.1) p.2 ∧
      ∀ f ∈ p.2, 0 ≤ f.2.1 ∧ 0 < f.2.2 := by
  decide

theorem C6_registry_invariant_witness :
    (("cdxallnam", [("file_number", 0, 8), ("name", 8, 189)]) ∈ ILSOS_SCHEMA) ∧
    (0 ≤ 8 ∧ 0 < 189) :=
  ⟨by decide,
   (C6_registry_invariant ("cdxallnam", [("file_number", 0, 8), ("name", 8, 189)])
     (by decide)).2 ("name", 8, 189) (by decide)⟩

/-- C2: a decoded text with fewer than 2 lines (including the empty
string) yields an empty record sequence for every schema, with no
error. -/
theorem C2_short_input_empty (txt : List Char) (schema : FixedWidthSchema)
    (h : (splitlines txt).length < 2) :
    parse_fixed_width txt schema = [] := by
  have h2 : (splitlines (pystrip txt)).length < 2 :=
    Nat.lt_of_le_of_lt (pystrip_lines_le txt) h
  unfold parse_fixed_width
  have hnil : ((splitlines (pystrip txt)).drop 1).dropLast = [] := by
    apply List.eq_nil_of_length_eq_zero
    rw [List.length_dropLast, List.length_drop]
    omega
  rw [hnil]
  rfl

theorem C2_short_input_empty_witness :
    ((splitlines "a".toList).length < 2 ∧
      parse_fixed_width "a".toList abSchema = []) ∧
    ((splitlines ([] : List Char)).length < 2 ∧
      parse_fixed_width [] abSchema = []) :=
  ⟨⟨by decide, C2_short_input_empty "a".toList abSchema (by decide)⟩,
   ⟨by decide, C2_short_input_empty [] abSchema (by decide)⟩⟩

/-- C4: slicing never fails on lines shorter than `start + length`: the
slice holds exactly the characters of the line whose index falls inside
`[start, start + length)`, it is empty (the empty string, not a missing
marker) when no such characters exist, and on the spec example the data
line `"ab"` under schema `[("a",0,3),("b",3,2)]` yields the record
`{"a":"ab","b":""}`. -/
theorem C4_ragged_lines :
    (∀ (line : List Char) (start len : Nat),
      pySlice line start (start + len) =
        (List.range len).filterMap (fun i => getElem? line (start + i))) ∧
    (∀ (line : List Char) (start len : Nat), line.length ≤ start →
      pySlice line start (start + len) = []) ∧
    parse_fixed_width "HDR\nab\nFTR".toList abSchema =
      [[("a", "ab".toList), ("b", [])]] := by
  refine ⟨pySlice_elems, ?_, by decide⟩
  intro line start len hle
  unfold pySlice
  rw [List.drop_eq_nil_of_le hle]
  simp

theorem C4_ragged_lines_witness :
    ("ab".toList.length ≤ 3 ∧ pySlice "ab".toList 3 (3 + 2) = []) :=
  ⟨by decide, C4_ragged_lines.2.1 "ab".toList 3 2 (by decide)⟩

/-- C3: before any field is sliced the cleaning pass substitutes the
glyph `İ` by `[`, `¨` by `]`, `¬` by `^` and deletes every U+0000; the
cleaned line is exactly the original mapped through this character
substitution with the nulls filtered out, and on a crafted line where
the substituted characters fall in field ranges they show up in the
field values in ASCII form. -/
theorem C3_char_substitution :
    (∀ line : List Char,
      clean_line line = (line.map substGlyph).filter (fun c => !(c == Char.ofNat 0))) ∧
    (substGlyph 'İ' = '[' ∧ substGlyph '¨' = ']' ∧ substGlyph '¬' = '^' ∧
      clean_line [Char.ofNat 0] = []) ∧
    parse_fixed_width "H\nİa¨\nF".toList [("a", 0, 2), ("b", 2, 1)] =
      [[("a", ['[', 'a']), ("b", [']'])]] := by
  exact ⟨clean_line_eq, by decide, by decide⟩

/-- C5: schema lookup is exact-match and loud on failure: an identifier
absent from the registry produces no schema at all (a `KeyError`, never
a silent empty or default schema), and each registered identifier maps
to its own schema. -/
theorem C5_lookup_exact :
    (∀ key : String, schemaLookup key = none ↔ key ∉ ILSOS_SCHEMA.map Prod.fst) ∧
    (∀ p ∈ ILSOS_SCHEMA, schemaLookup p.1 = some p.2) ∧
    (∀ (key : String) (sch : FixedWidthSchema), schemaLookup key = some sch → sch ≠ []) := by
  refine ⟨?_, by decide, ?_⟩
  · intro key
    unfold schemaLookup
    rw [Option.map_eq_none', List.find?_eq_none]
    constructor
    · intro h hmem
      obtain ⟨p, hp, he⟩ := List.mem_map.mp hmem
      exact h p hp (by simpa using he)
    · intro h p hp hbeq
      exact h (List.mem_map.mpr ⟨p, hp, by simpa using hbeq⟩)
  · intro key sch h
    unfold schemaLookup at h
    cases hf : ILSOS_SCHEMA.find? (fun q => q.1 == key) with
    | none => rw [hf] at h; exact absurd h (by simp)
    | some p =>
      rw [hf] at h
      have hp2 : p.2 = sch := by simpa using h
      have hmem : p ∈ ILSOS_SCHEMA := List.mem_of_find?_eq_some hf
      have hall : ∀ q ∈ ILSOS_SCHEMA, q.2 ≠ ([] : FixedWidthSchema) := by decide
      exact hp2 ▸ hall p hmem

theorem C5_lookup_exact_witness :
    (("cdxallnam", [("file_number", 0, 8), ("name", 8, 189)]) ∈ ILSOS_SCHEMA) ∧
    schemaLookup "cdxallnam" = some [("file_number", 0, 8), ("name", 8, 189)] :=
  ⟨by decide,
   C5_lookup_exact.2.1 ("cdxallnam", [("file_number", 0, 8), ("name", 8, 189)]) (by decide)⟩

theorem retryAux_attempt_le {α : Type} (f : Nat → Except FetchError α) :
    ∀ (left attempt : Nat), (retryAux f attempt left).2 ≤ attempt + left := by
  intro left
  induction left with
  | zero => intro attempt; simp [retryAux]
  | succ n ih =>
    intro attempt
    unfold retryAux
    cases hf : f attempt with
    | ok a => simp
    | error e =>
      by_cases hr : is_retryable_http_error e = true
      · simp only [hr, if_pos]
        have := ih (attempt + 1)
        omega
      · simp only [hr, if_neg, Bool.false_eq_true, not_false_iff]
        simp

/-- C8: the retry wrapper makes at most 3 attempts, its exponential
backoff is clamped between 4 and 10 time units at every attempt, its
retryable predicate holds exactly for timeouts, connection failures and
HTTP errors with a 5xx status, and a non-retryable error (e.g. a 4xx)
is reraised after the first attempt without any retry. -/
theorem C8_retry_policy :
    (∀ (α : Type) (f : Nat → Except FetchError α), (retry_handler f).2 ≤ 3) ∧
    (∀ attempt : Nat,
      4 ≤ wait_exponential 1 4 10 attempt ∧ wait_exponential 1 4 10 attempt ≤ 10) ∧
    (∀ e : FetchError, is_retryable_http_error e = true ↔
      (e = FetchError.timeoutErr ∨ e = FetchError.connectionErr ∨
        ∃ code, e = FetchError.httpErr (some code) ∧ 500 ≤ code ∧ code < 600)) ∧
    (∀ (α : Type) (f : Nat → Except FetchError α) (e : FetchError),
      f 1 = Except.error e → is_retryable_http_error e = false →
      retry_handler f = (Except.error e, 1)) := by
  refine ⟨?_, ?_, ?_, ?_⟩
  · intro α f
    exact retryAux_attempt_le f 2 1
  · intro attempt
    unfold wait_exponential
    have hm : Nat.max 0 4 = 4 := rfl
    rw [hm]
    constructor
    · exact Nat.le_max_left 4 _
    · exact Nat.max_le.mpr ⟨by omega, Nat.min_le_right _ _⟩
  · intro e
    cases e with
    | timeoutErr => simp [is_retryable_http_error]
    | connectionErr => simp [is_retryable_http_error]
    | httpErr o =>
      cases o with
      | none => simp [is_retryable_http_error]
      | some code => simp [is_retryable_http_error]
    | otherErr => simp [is_retryable_http_error]
  · intro α f e hf hr
    unfold retry_handler retryAux
    rw [hf]
    simp [hr]

theorem C8_retry_policy_witness :
    ((fun _ => (Except.error (FetchError.httpErr (some 404)) : Except FetchError Nat)) 1 =
      Except.error (FetchError.httpErr (some 404))) ∧
    is_retryable_http_error (FetchError.httpErr (some 404)) = false ∧
    retry_handler (fun _ => (Except.error (FetchError.httpErr (some 404)) : Except FetchError Nat)) =
      (Except.error (FetchError.httpErr (some 404)), 1) :=
  ⟨rfl, by decide, C8_retry_policy.2.2.2 Nat _ _ rfl (by decide)⟩

/-- C9: deleting a null (instead of substituting it one-for-one) shifts
every later character one position left in the cleaned line: cleaning a
line with a null at position p equals the concatenation of the cleaned
halves, a null-free prefix keeps its length, and the character at
cleaned position p + k is the (substituted) character that originally
sat at position p + 1 + k, so fields whose ranges lie at or beyond p
read offsets that no longer match the original fixed-width layout. -/
theorem C9_null_deletion_shifts (u v : List Char) (hu : noNull u) (hv : noNull v) :
    clean_line (u ++ Char.ofNat 0 :: v) = clean_line u ++ clean_line v ∧
    (clean_line u).length = u.length ∧
    (∀ k : Nat, getElem? (clean_line (u ++ Char.ofNat 0 :: v)) (u.length + k) =
      (getElem? v k).map substGlyph) := by
  have hA : clean_line (u ++ Char.ofNat 0 :: v) = clean_line u ++ clean_line v := by
    rw [clean_line_eq, clean_line_eq, clean_line_eq]
    rw [List.map_append, List.map_cons, List.filter_append, List.filter_cons]
    have hz : substGlyph (Char.ofNat 0) = Char.ofNat 0 := by decide
    rw [hz]
    simp
  have hu2 : clean_line u = u.map substGlyph := clean_line_of_noNull u hu
  have hv2 : clean_line v = v.map substGlyph := clean_line_of_noNull v hv
  have hlen : (clean_line u).length = u.length := by
    rw [hu2, List.length_map]
  refine ⟨hA, hlen, ?_⟩
  intro k
  rw [hA, List.getElem?_append_right (Nat.le_trans (Nat.le_of_eq hlen) (Nat.le_add_right _ _))]
  rw [hlen, Nat.add_sub_cancel_left, hv2, List.getElem?_map]

theorem C9_null_deletion_shifts_witness :
    noNull "x".toList ∧ noNull "yz".toList ∧
    clean_line ("x".toList ++ Char.ofNat 0 :: "yz".toList) =
      clean_line "x".toList ++ clean_line "yz".toList :=
  ⟨by decide, by decide,
   (C9_null_deletion_shifts "x".toList "yz".toList (by decide) (by decide)).1⟩

theorem rstrip_append_space (s w : List Char) (h : ∀ c ∈ w, pyIsSpace c = true) :
    rstrip (s ++ w) = rstrip s := by
  induction w using List.reverseRecOn with
  | nil => simp
  | append_singleton w2 a ih =>
    have ha : pyIsSpace a = true := h a (by simp)
    rw [← List.append_assoc, rstrip_snoc_space _ _ ha]
    exact ih (fun c hc => h c (by simp [hc]))

theorem pystrip_pad (t w1 w2 : List Char) (h1 : ∀ c ∈ w1, pyIsSpace c = true)
    (h2 : ∀ c ∈ w2, pyIsSpace c = true) :
    pystrip (w1 ++ t ++ w2) = pystrip t := by
  unfold pystrip lstrip
  rw [List.append_assoc, List.dropWhile_append_of_pos h1, List.dropWhile_append]
  by_cases he : (t.dropWhile pyIsSpace).isEmpty = true
  · rw [if_pos he]
    have hw2 : w2.dropWhile pyIsSpace = [] :=
      List.dropWhile_eq_nil_iff.mpr (fun x hx => h2 x hx)
    have ht : t.dropWhile pyIsSpace = [] := by
      cases hq : t.dropWhile pyIsSpace with
      | nil => rfl
      | cons a l => rw [hq] at he; simp [List.isEmpty] at he
    rw [hw2, ht]
  · rw [if_neg he]
    exact rstrip_append_space _ _ h2

/-- C10: the whole buffer is stripped of leading and trailing whitespace
before the line split, so padding any text with whitespace-only strings
(blank lines, trailing newlines, spaces) on either side never changes
the parse result, and the discarded first and last lines are those of
the stripped buffer. -/
theorem C10_whitespace_padding (t w1 w2 : List Char) (s : FixedWidthSchema)
    (h1 : ∀ c ∈ w1, pyIsSpace c = true) (h2 : ∀ c ∈ w2, pyIsSpace c = true) :
    parse_fixed_width (w1 ++ t ++ w2) s = parse_fixed_width t s := by
  unfold parse_fixed_width
  rw [pystrip_pad t w1 w2 h1 h2]

theorem C10_whitespace_padding_witness :
    pyIsSpace '\n' = true ∧ pyIsSpace ' ' = true ∧
    parse_fixed_width (['\n'] ++ "HDR\nabcXY\nFTR".toList ++ [' ']) abSchema =
      parse_fixed_width "HDR\nabcXY\nFTR".toList abSchema :=
  ⟨by decide, by decide,
   C10_whitespace_padding "HDR\nabcXY\nFTR".toList ['\n'] [' '] abSchema
     (by decide) (by decide)⟩

/-- C1 counterexample: the decoded text "\na\nb" has exactly 3 lines,
yet `parse_fixed_width` produces 0 records instead of 3 - 2 = 1: the
buffer is stripped before the header/footer trim, so the leading blank
line disappears and the lines dropped are "a" and "b", not the blank
first line and "b". -/
theorem C1_counterexample :
    (splitlines "\na\nb".toList).length = 3 ∧
    parse_fixed_width "\na\nb".toList abSchema = [] := by decide

/-- C1 amended: for every decoded text that equals its own
whitespace-strip and has exactly N ≥ 2 lines, `parse_fixed_width`
produces exactly N-2 records, the record at index i coming from input
line i+1 (excluding the first and last lines), in input order. -/
theorem C1_record_count (txt : List Char) (s : FixedWidthSchema) (N : Nat)
    (hs : pystrip txt = txt) (hN : (splitlines txt).length = N) (h2 : 2 ≤ N) :
    (parse_fixed_width txt s).length = N - 2 ∧
    ∀ i : Nat, i < N - 2 →
      getElem? (parse_fixed_width txt s) i =
        (getElem? (splitlines txt) (i + 1)).map
          (fun line => parseRow (clean_line line) s) := by
  unfold parse_fixed_width
  rw [hs]
  constructor
  · rw [List.length_map, List.length_dropLast, List.length_drop, hN]
    omega
  · intro i hi
    rw [List.getElem?_map, List.dropLast_eq_take,
      List.getElem?_take_of_lt
        (show i < ((splitlines txt).drop 1).length - 1 by
          rw [List.length_drop, hN]; omega),
      List.getElem?_drop, Nat.add_comm]

theorem C1_record_count_witness :
    pystrip "HDR\nabcXY\nFTR".toList = "HDR\nabcXY\nFTR".toList ∧
    (splitlines "HDR\nabcXY\nFTR".toList).length = 3 ∧ 2 ≤ 3 ∧
    (parse_fixed_width "HDR\nabcXY\nFTR".toList abSchema).length = 3 - 2 :=
  ⟨by decide, by decide, by decide,
   (C1_record_count "HDR\nabcXY\nFTR".toList abSchema 3 (by decide) (by decide)
     (by decide)).1⟩

end Ilsos
